import Mathlib

/-!
Verification of the resume extraction / LaTeX rendering core of the
AI-resume-builder repository (services/resumeParser.ts).

Strings are modelled as `List Char` (`Str`).  Every definition below is a
direct translation of the corresponding TypeScript function; JavaScript
string idioms (`split`, `includes`, truthiness of strings, `||` defaults)
are modelled explicitly.
-/

set_option maxHeartbeats 1000000
set_option maxRecDepth 100000

/-- JavaScript strings, modelled as lists of characters. -/
abbrev Str := List Char

/-- Characters treated as whitespace by JavaScript `trim` and `\s`
(ASCII fragment, which is all the code ever meets). -/
def jsSpace (c : Char) : Bool :=
  c = ' ' || c = '\t' || c = '\n' || c = '\x0d' || c = '\x0b' || c = '\x0c'

/-- JavaScript `String.prototype.trim`. -/
def jsTrim (s : Str) : Str :=
  ((s.dropWhile jsSpace).reverse.dropWhile jsSpace).reverse

/-- Split a string at the FIRST occurrence of a (non-empty) separator:
`some (before, after)` when the separator occurs, `none` otherwise.
This is the primitive underlying the JS `split`/`includes` usages below. -/
def splitFirst? (pat : Str) : Str → Option (Str × Str)
  | [] => if pat.isPrefixOf ([] : Str) then some ([], []) else none
  | c :: rest =>
    if pat.isPrefixOf (c :: rest) then some ([], (c :: rest).drop pat.length)
    else (splitFirst? pat rest).map (fun pq => (c :: pq.1, pq.2))

/-- JavaScript `s.includes(pat)` for non-empty `pat`. -/
def containsStr (s pat : Str) : Bool := (splitFirst? pat s).isSome

/-- Number of positions of `s` at which `pat` matches (occurrence count). -/
def occCount (pat : Str) : Str → Nat
  | [] => if pat.isPrefixOf ([] : Str) then 1 else 0
  | c :: rest => (if pat.isPrefixOf (c :: rest) then 1 else 0) + occCount pat rest

/-- The first two cells of JavaScript `s.split(sep)`: the text before the
first occurrence, and the text between the first and second occurrences
(the whole remainder when the separator occurs only once).  Returns
`(s, "")` when the separator does not occur (cell 1 is `undefined` in JS,
which the caller coalesces to the empty string). -/
def splitTwo (sep s : Str) : Str × Str :=
  match splitFirst? sep s with
  | none => (s, [])
  | some (p, q) =>
    match splitFirst? sep q with
    | none => (p, q)
    | some (p2, _) => (p, p2)

/-- JavaScript `Array.prototype.join(sep)`. -/
def joinSep (sep : Str) : List Str → Str
  | [] => []
  | [x] => x
  | x :: y :: t => x ++ sep ++ joinSep sep (y :: t)

/-- Split on every occurrence of any single character of `cs`
(JS `s.split(/[c₁c₂…]/)`). -/
def splitAnyChar (cs : List Char) : Str → List Str
  | [] => [[]]
  | c :: rest =>
    if cs.contains c then [] :: splitAnyChar cs rest
    else
      match splitAnyChar cs rest with
      | [] => [[c]]
      | p :: ps => (c :: p) :: ps

/-- ASCII lower-casing, as `String.prototype.toLowerCase` does on the
ASCII inputs this code handles. -/
def lowerStr (s : Str) : Str := s.map Char.toLower

/-- `escapeLatex`, first stage: `/\r?\n/g → ' '` (collapse newlines). -/
def collapseNewlines : Str → Str
  | [] => []
  | '\x0d' :: '\n' :: rest => ' ' :: collapseNewlines rest
  | '\n' :: rest => ' ' :: collapseNewlines rest
  | c :: rest => c :: collapseNewlines rest

/-- `escapeLatex`, second stage: `/\\/g → '\textbackslash{}'`. -/
def escBackslash : Str → Str
  | [] => []
  | '\\' :: rest => "\\textbackslash\x7b\x7d".toList ++ escBackslash rest
  | c :: rest => c :: escBackslash rest

/-- `escapeLatex`, third stage: `/[&%$#_{}~^]/g → '\$&'`. -/
def escReserved : Str → Str
  | [] => []
  | c :: rest =>
    if c = '&' || c = '%' || c = '$' || c = '#' || c = '_' ||
       c = '\x7b' || c = '\x7d' || c = '~' || c = '^' then
      '\\' :: c :: escReserved rest
    else c :: escReserved rest

/-- `escapeLatex`, fourth stage: `/</g → '\textless{}'`. -/
def escLess : Str → Str
  | [] => []
  | '<' :: rest => "\\textless\x7b\x7d".toList ++ escLess rest
  | c :: rest => c :: escLess rest

/-- `escapeLatex`, fifth stage: `/>/g → '\textgreater{}'`. -/
def escGreater : Str → Str
  | [] => []
  | '>' :: rest => "\\textgreater\x7b\x7d".toList ++ escGreater rest
  | c :: rest => c :: escGreater rest

/-- `ResumeParser.escapeLatex`: the five replacements chained in source
order (the `undefined`/`null` guard is vacuous over `Str`). -/
def escapeLatex (text : Str) : Str :=
  escGreater (escLess (escReserved (escBackslash (collapseNewlines text))))

structure PersonalInfo where
  name : Str
  email : Str
  phone : Str
  location : Str
  linkedin : Str
  github : Str
  website : Str
  deriving DecidableEq, Repr

structure Experience where
  company : Str
  position : Str
  location : Str
  startDate : Str
  endDate : Str
  bullets : List Str
  deriving DecidableEq, Repr

structure Education where
  institution : Str
  degree : Str
  field : Str
  graduationDate : Str
  gpa : Str
  honors : List Str
  deriving DecidableEq, Repr

structure Skill where
  category : Str
  skills : List Str
  deriving DecidableEq, Repr

structure Project where
  name : Str
  description : Str
  technologies : List Str
  url : Str
  startDate : Str
  endDate : Str
  deriving DecidableEq, Repr

structure Certification where
  name : Str
  issuer : Str
  date : Str
  expiryDate : Str
  credentialId : Str
  deriving DecidableEq, Repr

structure Award where
  name : Str
  issuer : Str
  date : Str
  description : Str
  deriving DecidableEq, Repr

/-- The `ResumeData` record of `types.ts`.  Optional string fields are
modelled as `Str` with `[]` for "absent": every consumer in the renderer
treats `undefined` and `''` identically (JS falsiness). -/
structure ResumeData where
  personalInfo : PersonalInfo
  summary : Str
  experience : List Experience
  education : List Education
  skills : List Skill
  projects : List Project
  certifications : List Certification
  awards : List Award
  deriving DecidableEq, Repr

/-- One byte as `%XX` (uppercase hex), as `encodeURI` produces. -/
def percentByte (n : Nat) : Str :=
  let hexDigit : Nat → Char := fun d =>
    if d < 10 then Char.ofNat ('0'.toNat + d) else Char.ofNat ('A'.toNat + d - 10)
  ['%', hexDigit (n / 16 % 16), hexDigit (n % 16)]

/-- UTF-8 bytes of a code point. -/
def utf8Bytes (n : Nat) : List Nat :=
  if n < 0x80 then [n]
  else if n < 0x800 then [0xC0 + n / 64, 0x80 + n % 64]
  else if n < 0x10000 then [0xE0 + n / 4096, 0x80 + n / 64 % 64, 0x80 + n % 64]
  else [0xF0 + n / 262144, 0x80 + n / 4096 % 64, 0x80 + n / 64 % 64, 0x80 + n % 64]

/-- Characters `encodeURI` leaves unescaped (alphanumerics plus
`;,/?:@&=+$-_.!~*'()#`). -/
def uriUnescaped (c : Char) : Bool :=
  c.isAlphanum || c = ';' || c = ',' || c = '/' || c = '?' || c = ':' ||
  c = '@' || c = '&' || c = '=' || c = '+' || c = '$' || c = '-' ||
  c = '_' || c = '.' || c = '!' || c = '~' || c = '*' || c.toNat = 39 ||
  c = '(' || c = ')' || c = '#'

/-- JavaScript `encodeURI`. -/
def encodeURI (s : Str) : Str :=
  s.flatMap (fun c =>
    if uriUnescaped c then [c] else (utf8Bytes c.toNat).flatMap percentByte)

/-- `ResumeParser.normalizeUrl` (`none` models the `null` return). -/
def normalizeUrl (url : Str) : Option Str :=
  if url = [] then none
  else
    let trimmed := jsTrim url
    if trimmed = [] then none
    else if "mailto:".toList.isPrefixOf trimmed then some (encodeURI trimmed)
    else if "http://".toList.isPrefixOf (lowerStr trimmed) ||
            "https://".toList.isPrefixOf (lowerStr trimmed) then
      some (encodeURI trimmed)
    else some (encodeURI ("https://".toList ++ trimmed))

/-- `ResumeParser.formatDateRange`. -/
def formatDateRange (start stop : Str) : Str :=
  let ts := jsTrim start
  let te := jsTrim stop
  if ts ≠ [] && te ≠ [] then ts ++ " – ".toList ++ te
  else if ts ≠ [] && te = [] then ts ++ " – Present".toList
  else if ts = [] && te ≠ [] then te
  else "Present".toList

/-- `ResumeParser.getDefaultPreamble`. -/
def getDefaultPreamble : Str :=
  "\\documentclass[letterpaper,11pt]\x7barticle\x7d\n".toList

/-- `ResumeParser.toBulletLines`: trim the items, drop the empty ones,
substitute the fallback sentence when nothing is left, and render one
`\resumeItem` line per item. -/
def toBulletLines (items : List Str) (fallback : Str) : Str :=
  let normalized := (items.map jsTrim).filter (fun s => !s.isEmpty)
  let normalized := if normalized.isEmpty then [fallback] else normalized
  joinSep "\n".toList
    (normalized.map (fun item =>
      "        \\resumeItem\x7b".toList ++ escapeLatex item ++ "\x7d".toList))

/-- `ResumeParser.buildHeader`. -/
def buildHeader (personalInfo : PersonalInfo) : Str :=
  let name := if jsTrim personalInfo.name ≠ [] then jsTrim personalInfo.name
              else "Your Name".toList
  let parts1 : List Str :=
    (if personalInfo.location ≠ [] then [escapeLatex personalInfo.location] else []) ++
    (if personalInfo.phone ≠ [] then [escapeLatex personalInfo.phone] else []) ++
    (if personalInfo.email ≠ [] then
      let email := jsTrim personalInfo.email
      ["\\href\x7bmailto:".toList ++ email ++ "\x7d\x7b".toList ++
        escapeLatex email ++ "\x7d".toList]
     else []) ++
    (if personalInfo.linkedin ≠ [] then
      match normalizeUrl personalInfo.linkedin with
      | some u => ["\\href\x7b".toList ++ u ++ "\x7d\x7bLinkedIn\x7d".toList]
      | none => []
     else []) ++
    (if personalInfo.github ≠ [] then
      match normalizeUrl personalInfo.github with
      | some u => ["\\href\x7b".toList ++ u ++ "\x7d\x7bGitHub\x7d".toList]
      | none => []
     else []) ++
    (if personalInfo.website ≠ [] then
      match normalizeUrl personalInfo.website with
      | some u => ["\\href\x7b".toList ++ u ++ "\x7d\x7bPortfolio\x7d".toList]
      | none => []
     else [])
  let contactParts :=
    if parts1.isEmpty then ["Add your preferred contact details".toList] else parts1
  "\\begin\x7bcenter\x7d\n    \x7b\\Huge \\scshape ".toList ++ escapeLatex name ++
    "\x7d \\ \\vspace\x7b1pt\x7d\n    ".toList ++
    joinSep " $|$ ".toList contactParts ++ " \\\n\\end\x7bcenter\x7d".toList

/-- `ResumeParser.buildSummary`. -/
def buildSummary (summary : Str) : Str :=
  let trimmedSummary := jsTrim summary
  if trimmedSummary = [] then []
  else
    "\\section\x7bProfessional Summary\x7d\n\\small\x7b".toList ++
      escapeLatex trimmedSummary ++ "\x7d".toList

/-- The experience-bullet fallback sentence of `buildExperienceSection`. -/
def expFallback : Str :=
  "Describe your impact with quantified achievements and relevant skills.".toList

/-- The entry renderer mapped over the experience list inside
`buildExperienceSection` (the source's inline arrow function). -/
def renderExperienceEntry (exp : Experience) : Str :=
  let bullets := toBulletLines exp.bullets expFallback
  let dateRange := formatDateRange exp.startDate exp.endDate
  let company := escapeLatex
    (if exp.company ≠ [] then exp.company else "Company Name".toList)
  let role := escapeLatex
    (if exp.position ≠ [] then exp.position else "Role Title".toList)
  let location := escapeLatex exp.location
  "    \\resumeSubheading\n      \x7b".toList ++ role ++ "\x7d\x7b".toList ++
    escapeLatex dateRange ++ "\x7d\n      \x7b".toList ++ company ++
    "\x7d\x7b".toList ++ location ++
    "\x7d\n      \\resumeItemListStart\n".toList ++ bullets ++
    "\n      \\resumeItemListEnd".toList

/-- `ResumeParser.buildExperienceSection`. -/
def buildExperienceSection (experience : List Experience) : Str :=
  if experience.isEmpty then []
  else
    let entries := joinSep "\n\\vspace\x7b-16pt\x7d\n".toList
      (experience.map renderExperienceEntry)
    "%-----------PROFESSIONAL EXPERIENCE-----------\n\\section\x7bProfessional Experience\x7d\n  \\resumeSubHeadingListStart\n".toList ++
      entries ++ "\n  \\resumeSubHeadingListEnd\n\\vspace\x7b-16pt\x7d".toList

/-- Split on runs of newlines (JS `split(/\n+/)`): like splitting on a
single `'\n'`, except that the empty cells produced by consecutive
newlines in the interior are merged away (the first and last cells are
kept even when empty, exactly as the regex split behaves). -/
def splitNewlineRuns (s : Str) : List Str :=
  match splitAnyChar ['\n'] s with
  | [] => [[]]
  | [x] => [x]
  | x :: xs => x :: ((xs.dropLast.filter (fun p => !p.isEmpty)) ++ [xs.getLastD []])

/-- `ResumeParser.buildProjectsSection`. -/
def buildProjectsSection (projects : List Project) : Str :=
  if projects.isEmpty then []
  else
    let entries := joinSep "\n".toList
      (projects.map (fun project =>
        let projectName := escapeLatex
          (if project.name ≠ [] then project.name else "Project Name".toList)
        let techStack :=
          if !project.technologies.isEmpty then
            " $|$ \\emph\x7b".toList ++
              escapeLatex (joinSep ", ".toList project.technologies) ++ "\x7d".toList
          else []
        let metaParts : List Str :=
          (if project.startDate ≠ [] || project.endDate ≠ [] then
            [escapeLatex (formatDateRange project.startDate project.endDate)] else []) ++
          (if project.url ≠ [] then
            match normalizeUrl project.url with
            | some u => ["\\href\x7b".toList ++ u ++ "\x7d\x7bLink\x7d".toList]
            | none => []
           else [])
        let rightColumn := joinSep " $|$ ".toList metaParts
        let descriptionLines :=
          if project.description ≠ [] then
            ((splitNewlineRuns project.description).map jsTrim).filter
              (fun s => !s.isEmpty)
          else []
        let bullets := toBulletLines descriptionLines
          "Summarize the project outcome, your contribution, and measurable impact.".toList
        "      \\resumeProjectHeading\n          \x7b\\textbf\x7b".toList ++
          projectName ++ "\x7d".toList ++ techStack ++ "\x7d\x7b".toList ++
          rightColumn ++ "\x7d\n          \\resumeItemListStart\n".toList ++
          bullets ++
          "\n          \\resumeItemListEnd\n          \\vspace\x7b-13pt\x7d".toList))
    "%-----------PROJECTS-----------\n\\section\x7bProjects\x7d\n    \\vspace\x7b-5pt\x7d\n    \\resumeSubHeadingListStart\n".toList ++
      entries ++ "\n    \\resumeSubHeadingListEnd\n\\vspace\x7b-15pt\x7d".toList

/-- `ResumeParser.buildSkillsSection`.  NB the source's `\item` inside a
template literal denotes the two characters `it` + `em` with NO
backslash (JS `\i` is just `i`). -/
def buildSkillsSection (skills : List Skill) : Str :=
  if skills.isEmpty then []
  else
    let skillLines := skills.map (fun skillGroup =>
      let skillsText :=
        if !skillGroup.skills.isEmpty then joinSep ", ".toList skillGroup.skills
        else "Update this section with your core competencies.".toList
      "     \\textbf\x7b".toList ++
        escapeLatex (if skillGroup.category ≠ [] then skillGroup.category
                     else "Skills".toList) ++
        "\x7d\x7b: ".toList ++ escapeLatex skillsText ++ "\x7d".toList)
    "%-----------TECHNICAL SKILLS-----------\n\\section\x7bTechnical Skills\x7d\n \\begin\x7bitemize\x7d[leftmargin=0.15in, label=\x7b\x7d]\n    \\small\x7bitem\x7b\n".toList ++
      joinSep " \\\n".toList skillLines ++
      " \\\n    \x7d\x7d\n \\end\x7bitemize\x7d\n \\vspace\x7b-16pt\x7d".toList

/-- `ResumeParser.buildEducationSection`. -/
def buildEducationSection (education : List Education) : Str :=
  if education.isEmpty then []
  else
    let entries := joinSep "\n".toList
      (education.map (fun edu =>
        let degreeLine :=
          (if edu.degree ≠ [] then edu.degree else "Degree".toList) ++
          (if edu.field ≠ [] then " in ".toList ++ edu.field else [])
        let dateLine := if edu.graduationDate ≠ [] then escapeLatex edu.graduationDate
                        else []
        let institution := escapeLatex
          (if edu.institution ≠ [] then edu.institution else "Institution".toList)
        let trailing :=
          if !edu.honors.isEmpty then escapeLatex (joinSep ", ".toList edu.honors)
          else if edu.gpa ≠ [] then escapeLatex ("GPA: ".toList ++ edu.gpa)
          else []
        "    \\resumeSubheading\n      \x7b".toList ++ escapeLatex degreeLine ++
          "\x7d\x7b".toList ++ dateLine ++ "\x7d\n      \x7b".toList ++
          institution ++ "\x7d\x7b".toList ++ trailing ++ "\x7d".toList))
    "%-----------EDUCATION-----------\n\\section\x7bEducation\x7d\n  \\resumeSubHeadingListStart\n".toList ++
      entries ++ "\n  \\resumeSubHeadingListEnd".toList

/-- `ResumeParser.buildCertificationsSection`. -/
def buildCertificationsSection (certifications : List Certification) : Str :=
  if certifications.isEmpty then []
  else
    let items := certifications.map (fun cert =>
      let meta : List Str :=
        (if cert.issuer ≠ [] then ["Issued by ".toList ++ cert.issuer] else []) ++
        (if cert.date ≠ [] then [cert.date] else []) ++
        (if cert.expiryDate ≠ [] then ["Expires ".toList ++ cert.expiryDate] else []) ++
        (if cert.credentialId ≠ [] then ["ID ".toList ++ cert.credentialId] else [])
      let metaText :=
        if !meta.isEmpty then
          " (".toList ++ joinSep "; ".toList (meta.map escapeLatex) ++ ")".toList
        else []
      "    \\item ".toList ++ escapeLatex cert.name ++ metaText)
    "%-----------CERTIFICATIONS-----------\n\\section\x7bCertifications\x7d\n  \\begin\x7bitemize\x7d[leftmargin=0.15in]\n".toList ++
      joinSep "\n".toList items ++ "\n  \\end\x7bitemize\x7d".toList

/-- `ResumeParser.buildAwardsSection`. -/
def buildAwardsSection (awards : List Award) : Str :=
  if awards.isEmpty then []
  else
    let items := awards.map (fun award =>
      let meta : List Str :=
        (if award.issuer ≠ [] then [award.issuer] else []) ++
        (if award.date ≠ [] then [award.date] else [])
      let metaText :=
        if !meta.isEmpty then
          " (".toList ++ joinSep "; ".toList (meta.map escapeLatex) ++ ")".toList
        else []
      let description :=
        if award.description ≠ [] then
          " -- ".toList ++ escapeLatex award.description
        else []
      "    \\item ".toList ++ escapeLatex award.name ++ metaText ++ description)
    "%-----------AWARDS-----------\n\\section\x7bAwards\x7d\n  \\begin\x7bitemize\x7d[leftmargin=0.15in]\n".toList ++
      joinSep "\n".toList items ++ "\n  \\end\x7bitemize\x7d".toList

/-- `ResumeParser.buildLatexBody`: fixed section order, empty sections
filtered out, glued with blank lines. -/
def buildLatexBody (resumeData : ResumeData) : Str :=
  let optSec : Str → List Str := fun s => if s.isEmpty then [] else [s]
  let sections : List Str :=
    [buildHeader resumeData.personalInfo] ++
    optSec (buildSummary resumeData.summary) ++
    optSec (buildExperienceSection resumeData.experience) ++
    optSec (buildProjectsSection resumeData.projects) ++
    optSec (buildSkillsSection resumeData.skills) ++
    optSec (buildEducationSection resumeData.education) ++
    optSec (buildCertificationsSection resumeData.certifications) ++
    optSec (buildAwardsSection resumeData.awards)
  joinSep "\n\n".toList (sections.filter (fun s => !s.isEmpty))

/-- The source's final `postDocument ? core + postDocument : core`
ternary (JS: append only when the string is truthy — the two branches
coincide extensionally). -/
def appendIfNonempty (core post : Str) : Str :=
  if post.isEmpty then core else core ++ post

/-- The `\begin{document}` marker. -/
def beginDelim : Str := "\\begin\x7bdocument\x7d".toList

/-- The `\end{document}` marker. -/
def endDelim : Str := "\\end\x7bdocument\x7d".toList

/-- `ResumeParser.generateLatexFromResume`: template splicing.  The JS
`split` destructuring, the `|| ''` coalescing, the `slice(1).join`
recombination and the final `postDocument ?` ternary are each modelled
explicitly. -/
def generateLatexFromResume (resumeData : ResumeData) (templateLatex : Str) : Str :=
  let hasBegin := containsStr templateLatex beginDelim
  let hasEnd := containsStr templateLatex endDelim
  let pr := if hasBegin then splitTwo beginDelim templateLatex
            else (getDefaultPreamble, [])
  let preambleSection := pr.1
  let afterBegin := pr.2
  let postDocument :=
    if hasEnd then
      match splitFirst? endDelim afterBegin with
      | some pq => pq.2
      | none => []
    else []
  let latexBody := buildLatexBody resumeData
  let preamble := if hasBegin then preambleSection else getDefaultPreamble
  let documentCore :=
    preamble ++ beginDelim ++ "\n".toList ++ latexBody ++ "\n".toList ++ endDelim
  appendIfNonempty documentCore postDocument

/-- The text of `s` strictly before the first occurrence of `pat`
(`s` itself when `pat` does not occur). -/
def textBeforeFirst (pat s : Str) : Str := ((splitFirst? pat s).map Prod.fst).getD s

/-- The text of `s` strictly after the first occurrence of `pat`
(empty when `pat` does not occur). -/
def textAfterFirst (pat s : Str) : Str := ((splitFirst? pat s).map Prod.snd).getD []

/-- A resume record with every field empty. -/
def emptyResume : ResumeData :=
  ⟨⟨[], [], [], [], [], [], []⟩, [], [], [], [], [], [], []⟩

/-- A template whose single end marker occurs BEFORE its single begin
marker. -/
def swappedTemplate : Str :=
  "\\end\x7bdocument\x7dX\\begin\x7bdocument\x7d".toList


/-- The example name of the spec's escaping test. -/
def fancyName : Str := "50% & Associates".toList

/-- A resume record whose name is `50% & Associates` and whose every
other field is empty. -/
def fancyNameResume : ResumeData :=
  ⟨⟨fancyName, [], [], [], [], [], []⟩, [], [], [], [], [], [], []⟩

/-- First template of the double-render escaping test. -/
def templateA : Str :=
  "A\\begin\x7bdocument\x7dB\\end\x7bdocument\x7dC".toList

/-- Second (different) template of the double-render escaping test. -/
def templateB : Str :=
  "P\\begin\x7bdocument\x7d\\end\x7bdocument\x7d".toList


/-- `PersonalInfo` as it can reach `validateResumeData` at runtime: each
field possibly `undefined`. -/
structure PersonalInfoP where
  name : Option Str
  email : Option Str
  phone : Option Str
  location : Option Str
  linkedin : Option Str
  github : Option Str
  website : Option Str
  deriving DecidableEq, Repr

/-- `ResumeData` as it can reach `validateResumeData` at runtime: the
`personalInfo` object and every collection possibly `undefined`. -/
structure ResumeDataP where
  personalInfo : Option PersonalInfoP
  summary : Option Str
  experience : Option (List Experience)
  education : Option (List Education)
  skills : Option (List Skill)
  projects : Option (List Project)
  certifications : Option (List Certification)
  awards : Option (List Award)
  deriving DecidableEq, Repr

/-- The fully-keyed all-empty `personalInfo` object that the validator
installs when the object is missing. -/
def emptyPersonalInfoP : PersonalInfoP :=
  ⟨some [], some [], some [], some [], some [], some [], some []⟩

/-- `ResumeParser.validateResumeData`: replaces an absent `personalInfo`
(JS `!data.personalInfo`) by the fully-keyed empty object, defaults each
of the six collections to `[]` (JS `x || []`), and returns the record
otherwise unchanged. -/
def validateResumeData (data : ResumeDataP) : ResumeDataP :=
  { personalInfo := some (data.personalInfo.getD emptyPersonalInfoP)
    summary := data.summary
    experience := some (data.experience.getD [])
    education := some (data.education.getD [])
    skills := some (data.skills.getD [])
    projects := some (data.projects.getD [])
    certifications := some (data.certifications.getD [])
    awards := some (data.awards.getD []) }

/-- A partial record whose `personalInfo` object is present but carries
only its `name` field. -/
def partialNameOnly : ResumeDataP :=
  ⟨some ⟨some "A".toList, none, none, none, none, none, none⟩,
    none, none, none, none, none, none, none⟩


/-- JS `\w` (ASCII word character), as used by the `\b` boundary. -/
def wordChar (c : Char) : Bool :=
  ('a' ≤ c && c ≤ 'z') || ('A' ≤ c && c ≤ 'Z') || ('0' ≤ c && c ≤ '9') || c = '_'

/-- Line terminators, which the JS regex `.` metacharacter never matches. -/
def lineTerm (c : Char) : Bool :=
  c = '\n' || c = '\x0d' || c.toNat = 0x2028 || c.toNat = 0x2029

/-- Case-insensitive match of a keyword pattern (literal characters plus
`.` wildcards, `none` entries) against a prefix of `s`; returns the
remainder on success. -/
def matchPat? : List (Option Char) → Str → Option Str
  | [], s => some s
  | _ :: _, [] => none
  | some p :: ps, c :: cs =>
    if c.toLower = p.toLower then matchPat? ps cs else none
  | none :: ps, c :: cs =>
    if lineTerm c then none else matchPat? ps cs

/-- `\b<kw>\b` matching somewhere in the string, scanning positions left
to right while tracking the previous character; the source's keywords all
begin and end with word characters, so the boundaries amount to a
non-word (or absent) neighbour on each side. -/
def testWordPatAux (pat : List (Option Char)) : Option Char → Str → Bool
  | _, [] => false
  | prev, c :: cs =>
    ((match prev with | none => true | some p => !wordChar p) &&
      (match matchPat? pat (c :: cs) with
       | some [] => true
       | some (r :: _) => !wordChar r
       | none => false)) ||
    testWordPatAux pat (some c) cs

/-- `regex.test(s)` for an alternation of word-bounded keywords. -/
def testWordPats (pats : List (List (Option Char))) (s : Str) : Bool :=
  pats.any (fun p => testWordPatAux p none s)

/-- A purely literal keyword pattern. -/
def litPat (kw : String) : List (Option Char) := kw.toList.map some

/-- `/\b(javascript|python|java|react|node|sql|html|css|aws|docker|git)\b/i`. -/
def technicalPats : List (List (Option Char)) :=
  [litPat "javascript", litPat "python", litPat "java", litPat "react",
   litPat "node", litPat "sql", litPat "html", litPat "css", litPat "aws",
   litPat "docker", litPat "git"]

/-- `/\b(communication|leadership|teamwork|problem.solving|analytical)\b/i`
(NB the unescaped `.` of `problem.solving` matches any
non-line-terminator). -/
def softPats : List (List (Option Char)) :=
  [litPat "communication", litPat "leadership", litPat "teamwork",
   litPat "problem" ++ [none] ++ litPat "solving", litPat "analytical"]

/-- The technical-keyword regex test. -/
def techTest (s : Str) : Bool := testWordPats technicalPats s

/-- The soft-keyword regex test. -/
def softTest (s : Str) : Bool := testWordPats softPats s

/-- The fixed section-header vocabulary of `isSectionHeader`. -/
def sectionHeaders : List Str :=
  ["experience".toList, "education".toList, "skills".toList,
   "projects".toList, "certifications".toList, "awards".toList,
   "summary".toList, "objective".toList, "professional".toList,
   "academic".toList]

/-- `ResumeParser.isSectionHeader`: the lower-cased line contains a
vocabulary word, or the line is shorter than 30 characters and matches
`/^[A-Z\s]+$/`. -/
def isSectionHeader (line : Str) : Bool :=
  sectionHeaders.any (fun h => containsStr (lowerStr line) h) ||
  (decide (line.length < 30) && !line.isEmpty &&
    line.all (fun c => ('A' ≤ c && c ≤ 'Z') || jsSpace c))

/-- The shared `let start = -1; …; if (start === -1) return …` scan: the
lines after the first line whose lower-casing contains one of the
keywords, `none` when there is no such line. -/
def linesAfterKw (kws : List Str) : List Str → Option (List Str)
  | [] => none
  | l :: rest =>
    if kws.any (fun k => containsStr (lowerStr l) k) then some rest
    else linesAfterKw kws rest

/-- Keywords locating the skills section. -/
def skillsKeywords : List Str :=
  ["skills".toList, "technologies".toList, "competencies".toList]

/-- The token-classification stage of `extractSkills` (everything after
`skillItems` is computed): three `filter`s — membership via JS
`includes`, i.e. value equality — and up to three groups pushed in the
fixed order technical, soft, other. -/
def categorizeSkills (skillItems : List Str) : List Skill :=
  let technicalSkills := skillItems.filter techTest
  let softSkills := skillItems.filter softTest
  let otherSkills := skillItems.filter
    (fun skill =>
      !(decide (skill ∈ technicalSkills)) && !(decide (skill ∈ softSkills)))
  (if !technicalSkills.isEmpty then
    [⟨"Technical Skills".toList, technicalSkills⟩] else []) ++
  (if !softSkills.isEmpty then [⟨"Soft Skills".toList, softSkills⟩] else []) ++
  (if !otherSkills.isEmpty then [⟨"Other Skills".toList, otherSkills⟩] else [])

/-- `ResumeParser.extractSkills`: find the section, collect its lines up
to the next header, join them, split on `•`, `,` and newline, trim,
drop empties, classify. -/
def extractSkills (lines : List Str) : List Skill :=
  match linesAfterKw skillsKeywords lines with
  | none => []
  | some rest =>
    let skillsText :=
      (rest.takeWhile (fun l => !isSectionHeader l)).filter (fun l => !l.isEmpty)
    let allSkillsText := joinSep " ".toList skillsText
    let skillItems :=
      ((splitAnyChar ['•', ',', '\n'] allSkillsText).map jsTrim).filter
        (fun s => !s.isEmpty)
    categorizeSkills skillItems

/-- The spec's concrete skills example. -/
def skillsDemoLines : List Str :=
  ["Skills".toList,
   "JavaScript, Python, React, Node.js, SQL, Git, Docker, AWS".toList]

/-- A skills input whose single token matches BOTH keyword regexes. -/
def skillsBothLines : List Str :=
  ["Skills".toList, "javascript leadership".toList]


/-- The single `\resumeItem` line produced for an entry whose bullet
list trims away to nothing. -/
def fallbackItemLine : Str :=
  "        \\resumeItem\x7b".toList ++ escapeLatex expFallback ++ "\x7d".toList

/-- The opening of every rendered bullet line. -/
def resumeItemOpen : Str := "\\resumeItem\x7b".toList

/-- A record with two experience entries: one whose bullet sequence is
empty, one whose only bullet is whitespace. -/
def twoEntryResume : ResumeData :=
  ⟨⟨[], [], [], [], [], [], []⟩, [],
    [⟨"AlphaCo".toList, "Dev".toList, [], [], [], []⟩,
     ⟨"BetaCo".toList, "Eng".toList, [], [], [], [" ".toList]⟩],
    [], [], [], [], []⟩

/-- A minimal well-formed template. -/
def simpleTemplate : Str :=
  "\\begin\x7bdocument\x7d\\end\x7bdocument\x7d".toList


/-- Keywords locating the experience section. -/
def experienceKeywords : List Str :=
  ["experience".toList, "work".toList, "employment".toList,
   "professional".toList]

/-- The job-heading regex tail `(?:\\s*\\|.*)?$` applied to a remainder:
either nothing is left, or after greedy spaces a `|` follows, and `.*`
(which never crosses a line terminator) must reach the end. -/
def jobTailOk (rem : Str) : Bool :=
  rem.isEmpty ||
  (match rem.dropWhile jsSpace with
   | '|' :: t => t.all (fun c => !lineTerm c)
   | _ => false)

/-- Lazy `(.+?)` company group: the shortest non-empty prefix of
non-line-terminators after which the regex tail matches. -/
def companyGroup? (acc : Str) : Str → Option Str
  | [] => none
  | c :: rest =>
    if lineTerm c then none
    else if jobTailOk rest then some (acc ++ [c])
    else companyGroup? (acc ++ [c]) rest

/-- Backtracking for the greedy `\\s*` before the company group: the
maximal run of spaces is consumed first, shrinking on failure. -/
def companyAfterSpaces? (r2 : Str) : Nat → Option Str
  | 0 => companyGroup? [] r2
  | n + 1 =>
    match companyGroup? [] (r2.drop (n + 1)) with
    | some g => some g
    | none => companyAfterSpaces? r2 n

/-- Match `\\s*(?:at|@)\\s*(.+?)(?:\\s*\\|.*)?$` against the text after the
position group (spaces before `at`/`@` need no backtracking: neither
alternative starts with a space, and the alternatives are mutually
exclusive). -/
def jobSepAndCompany? (s : Str) : Option Str :=
  let r1 := s.dropWhile jsSpace
  let r2? : Option Str :=
    match r1 with
    | a :: t :: rest =>
      if a.toLower = 'a' ∧ t.toLower = 't' then some rest
      else if a = '@' then some (t :: rest) else none
    | [a] => if a = '@' then some [] else none
    | [] => none
  match r2? with
  | none => none
  | some r2 => companyAfterSpaces? r2 (r2.takeWhile jsSpace).length

/-- Scan of the lazy position group `^(.+?)` of the job-heading regex:
grow it one character at a time (never across a line terminator), taking
the first split at which the rest of the regex matches. -/
def jobGo (acc : Str) : Str → Option (Str × Str)
  | [] => none
  | c :: rest =>
    if lineTerm c then none
    else
      match jobSepAndCompany? rest with
      | some g2 => some (acc ++ [c], g2)
      | none => jobGo (acc ++ [c]) rest

/-- `line.match(/^(.+?)\\s*(?:at|@)\\s*(.+?)(?:\\s*\\|.*)?$/i)`, returning
the raw captured position and company groups. -/
def jobMatch? (line : Str) : Option (Str × Str) := jobGo [] line

/-- State of the `extractExperience` loop.  The JS code mutates a
`currentExp` object that may already have been pushed (by reference,
possibly several times) into the result array, so the model keeps a
store of the created entries (`objs`), the indices pushed so far
(`pushes`), and the index of the current entry; the result array is
materialised at the end. -/
structure ExpState where
  objs : List Experience
  pushes : List Nat
  cur : Option Nat
  deriving DecidableEq, Repr

/-- Look an entry up in the store. -/
def expStateGet (st : ExpState) (i : Nat) : Experience :=
  st.objs.getD i ⟨[], [], [], [], [], []⟩

/-- `currentExp.position && currentExp.company` (the commit guard). -/
def curComplete (st : ExpState) : Bool :=
  match st.cur with
  | none => false
  | some i =>
    !(expStateGet st i).position.isEmpty && !(expStateGet st i).company.isEmpty

/-- `currentExp.position` (the bullet-branch guard). -/
def curHasPosition (st : ExpState) : Bool :=
  match st.cur with
  | none => false
  | some i => !(expStateGet st i).position.isEmpty

/-- One iteration of the `extractExperience` loop body. -/
def expStep (st : ExpState) (line : Str) : ExpState :=
  if !(line.head? = some '•') && !(line.head? = some '-') &&
      decide (line.length > 5) then
    let st1 : ExpState :=
      if curComplete st then { st with pushes := st.pushes ++ [st.cur.getD 0] }
      else st
    match jobMatch? line with
    | some pc =>
      { st1 with
        objs := st1.objs ++ [⟨jsTrim pc.2, jsTrim pc.1, [], [], [], []⟩],
        cur := some st1.objs.length }
    | none =>
      if containsStr line ['|'] || containsStr line " - ".toList then
        let parts := (splitAnyChar ['|', '-'] line).map jsTrim
        if decide (parts.length ≥ 2) then
          { st1 with
            objs := st1.objs ++
              [⟨parts.getD 1 [], parts.getD 0 [], [], [], [], []⟩],
            cur := some st1.objs.length }
        else st1
      else st1
  else if (line.head? = some '•' || line.head? = some '-') &&
      curHasPosition st then
    let bullet := jsTrim (line.drop 1)
    if !bullet.isEmpty then
      match st.cur with
      | some i =>
        { st with
          objs := st.objs.set i
            (let e := expStateGet st i
             ⟨e.company, e.position, e.location, e.startDate, e.endDate,
              e.bullets ++ [bullet]⟩) }
      | none => st
    else st
  else st

/-- The `extractExperience` loop with its header break condition. -/
def extractExpLoop : ExpState → List Str → ExpState
  | st, [] => st
  | st, line :: rest =>
    if isSectionHeader line && decide (lowerStr line ≠ "experience".toList) then st
    else extractExpLoop (expStep st line) rest

/-- Materialise the result array: the recorded pushes plus the final
commit of a complete current entry. -/
def extractExpFinalize (st : ExpState) : List Experience :=
  (st.pushes ++ (if curComplete st then [st.cur.getD 0] else [])).map
    (expStateGet st)

/-- `ResumeParser.extractExperience`. -/
def extractExperience (lines : List Str) : List Experience :=
  match linesAfterKw experienceKeywords lines with
  | none => []
  | some rest => extractExpFinalize (extractExpLoop ⟨[], [], none⟩ rest)

/-- The heading lines of the synthetic experience example. -/
def expDemoHead : List Str :=
  ["Experience".toList,
   "Senior Developer at Tech Corp | Jan 2020 - Present".toList]


/-- The synthetic example with a second bullet that contains the word
`education`, which `isSectionHeader` recognises as a header. -/
def expCexLines : List Str :=
  expDemoHead ++
    ["• Led a team of 5 engineers".toList, "• Led education initiatives".toList]


/-- One item of a regular-expression sequence, sufficient for the four
contact patterns of `extractPersonalInfo`: a literal, a case-insensitive
literal, a greedy character class with a minimum count, a character
class with an exact count, a word boundary, or a greedy optional
group. -/
inductive RItem where
  | lit : Char → RItem
  | litci : Char → RItem
  | cls : (Char → Bool) → Nat → RItem
  | clsE : (Char → Bool) → Nat → RItem
  | wb : RItem
  | opt : List RItem → RItem

/-- Size measure for the backtracking matcher. -/
def itemsSize : List RItem → Nat
  | [] => 0
  | RItem.opt g :: rest => 1 + itemsSize g + itemsSize rest
  | _ :: rest => 1 + itemsSize rest

/-- Is the character at index `j` a word character? (out of range:
no). -/
def wordAt (s : Str) (j : Nat) : Bool :=
  match s.get? j with
  | some c => wordChar c
  | none => false

/-- `\b` at position `i` of `s`. -/
def wordBoundary (s : Str) (i : Nat) : Bool :=
  (if i = 0 then false else wordAt s (i - 1)) != wordAt s i

/-- Backtracking matcher: match the item sequence against `s` starting
at `i`, returning the end position of the match.  Greedy classes try the
longest repetition first; optional groups try to match first. -/
def matchSeq (s : Str) : List RItem → Nat → Option Nat
  | [], i => some i
  | RItem.lit c :: rest, i =>
    match s.get? i with
    | some c2 => if c2 = c then matchSeq s rest (i + 1) else none
    | none => none
  | RItem.litci c :: rest, i =>
    match s.get? i with
    | some c2 => if c2.toLower = c.toLower then matchSeq s rest (i + 1) else none
    | none => none
  | RItem.wb :: rest, i => if wordBoundary s i then matchSeq s rest i else none
  | RItem.clsE p n :: rest, i =>
    if ((s.drop i).take n).length = n ∧ ((s.drop i).take n).all p then
      matchSeq s rest (i + n)
    else none
  | RItem.cls p n :: rest, i =>
    let m := ((s.drop i).takeWhile p).length
    if m < n then none
    else (List.range (m - n + 1)).findSome? (fun j => matchSeq s rest (i + (m - j)))
  | RItem.opt g :: rest, i =>
    match matchSeq s (g ++ rest) i with
    | some e => some e
    | none => matchSeq s rest i
termination_by items _ => itemsSize items
decreasing_by
  all_goals
    have happ : ∀ (a b : List RItem), itemsSize (a ++ b) = itemsSize a + itemsSize b := by
      intro a b
      induction a with
      | nil => simp [itemsSize]
      | cons x t ih => cases x <;> simp [itemsSize, ih] <;> omega
    simp [itemsSize, happ]

/-- Leftmost match of the pattern in `s` (`String.prototype.match`,
first element), as the matched substring. -/
def firstMatch? (items : List RItem) (s : Str) : Option Str :=
  (List.range (s.length + 1)).findSome? (fun i =>
    (matchSeq s items i).map (fun e => (s.drop i).take (e - i)))

/-- `[A-Za-z0-9]`. -/
def alnumChar (c : Char) : Bool :=
  ('a' ≤ c && c ≤ 'z') || ('A' ≤ c && c ≤ 'Z') || ('0' ≤ c && c ≤ '9')

/-- `[A-Za-z0-9._%+-]` (e-mail local part). -/
def emailLocalChar (c : Char) : Bool :=
  alnumChar c || c = '.' || c = '_' || c = '%' || c = '+' || c = '-'

/-- `[A-Za-z0-9.-]` (e-mail domain). -/
def emailDomainChar (c : Char) : Bool := alnumChar c || c = '.' || c = '-'

/-- `[A-Z|a-z]` — the source's TLD class literally includes `|`. -/
def emailTldChar (c : Char) : Bool :=
  ('a' ≤ c && c ≤ 'z') || ('A' ≤ c && c ≤ 'Z') || c = '|'

/-- `[0-9]`. -/
def digitChar (c : Char) : Bool := '0' ≤ c && c ≤ '9'

/-- `[-.\s]`. -/
def phoneSepChar (c : Char) : Bool := c = '-' || c = '.' || jsSpace c

/-- `[A-Za-z0-9_-]`. -/
def handleChar (c : Char) : Bool := alnumChar c || c = '_' || c = '-'

/-- `/\b[A-Za-z0-9._%+-]+@[A-Za-z0-9.-]+\.[A-Z|a-z]{2,}\b/`. -/
def emailPattern : List RItem :=
  [RItem.wb, RItem.cls emailLocalChar 1, RItem.lit '@',
   RItem.cls emailDomainChar 1, RItem.lit '.', RItem.cls emailTldChar 2,
   RItem.wb]

/-- `/(\+?1?[-.\s]?)?\(?([0-9]{3})\)?[-.\s]?([0-9]{3})[-.\s]?([0-9]{4})\b/`. -/
def phonePattern : List RItem :=
  [RItem.opt [RItem.opt [RItem.lit '+'], RItem.opt [RItem.lit '1'],
     RItem.opt [RItem.clsE phoneSepChar 1]],
   RItem.opt [RItem.lit '('], RItem.clsE digitChar 3, RItem.opt [RItem.lit ')'],
   RItem.opt [RItem.clsE phoneSepChar 1], RItem.clsE digitChar 3,
   RItem.opt [RItem.clsE phoneSepChar 1], RItem.clsE digitChar 4, RItem.wb]

/-- `/linkedin\.com\/in\/[A-Za-z0-9_-]+/i`. -/
def linkedinPattern : List RItem :=
  "linkedin.com/in/".toList.map RItem.litci ++ [RItem.cls handleChar 1]

/-- `/github\.com\/[A-Za-z0-9_-]+/i`. -/
def githubPattern : List RItem :=
  "github.com/".toList.map RItem.litci ++ [RItem.cls handleChar 1]

/-- `ResumeParser.extractPersonalInfo`: name heuristic over the first
five lines, regex scans over the space-joined full text, location
heuristic over the first ten lines; `website` is never set. -/
def extractPersonalInfo (lines : List Str) : PersonalInfo :=
  let name :=
    match (lines.take 5).find? (fun line =>
      decide (0 < line.length) && decide (line.length < 50) &&
      !containsStr line ['@'] && !line.any digitChar &&
      !containsStr line ['|'] && !containsStr line ['•'] &&
      !containsStr line " - ".toList) with
    | some l => l
    | none => []
  let fullText := joinSep [' '] lines
  let email := (firstMatch? emailPattern fullText).getD []
  let phone := (firstMatch? phonePattern fullText).getD []
  let linkedin := (firstMatch? linkedinPattern fullText).getD []
  let github := (firstMatch? githubPattern fullText).getD []
  let location :=
    match (lines.take 10).find? (fun line =>
      containsStr line [','] && decide (line.length < 50) &&
      !containsStr line ['@'] &&
      decide ((splitAnyChar [','] line).length = 2)) with
    | some l => l
    | none => []
  ⟨name, email, phone, location, linkedin, github, []⟩

/-- Keywords locating the summary section. -/
def summaryKeywords : List Str :=
  ["summary".toList, "objective".toList, "profile".toList, "about".toList]

/-- Summary line collection: stop at the next header, keep lines longer
than 10 characters, stop once three are kept. -/
def collectSummary (acc : List Str) : List Str → List Str
  | [] => acc
  | l :: rest =>
    if isSectionHeader l then acc
    else
      let acc2 := if decide (l.length > 10) then acc ++ [l] else acc
      if decide (acc2.length ≥ 3) then acc2 else collectSummary acc2 rest

/-- `ResumeParser.extractSummary`. -/
def extractSummary (lines : List Str) : Str :=
  match linesAfterKw summaryKeywords lines with
  | none => []
  | some rest => joinSep [' '] (collectSummary [] rest)

/-- `(?:,\s*(.+?))?$` of the education regex applied to a remainder:
`some none` when nothing is left (group skipped), `some (some g3)` when a
comma, greedy backtracked spaces and a non-empty lazy-to-the-end third
group follow. -/
def eduG3? (r4 : Str) : Nat → Option Str
  | 0 => if !r4.isEmpty && r4.all (fun c => !lineTerm c) then some r4 else none
  | n + 1 =>
    let cand := r4.drop (n + 1)
    if !cand.isEmpty && cand.all (fun c => !lineTerm c) then some cand
    else eduG3? r4 n

/-- See `eduG3?`. -/
def eduRest? (rem : Str) : Option (Option Str) :=
  if rem.isEmpty then some none
  else
    match rem with
    | ',' :: r4 =>
      match eduG3? r4 (r4.takeWhile jsSpace).length with
      | some g3 => some (some g3)
      | none => none
    | _ => none

/-- Lazy second group `(.+?)` of the education regex. -/
def eduG2Go (acc : Str) : Str → Option (Str × Option Str)
  | [] => none
  | c :: rest =>
    if lineTerm c then none
    else
      match eduRest? rest with
      | some g3 => some (acc ++ [c], g3)
      | none => eduG2Go (acc ++ [c]) rest

/-- Greedy backtracked `\s*` before the second group. -/
def eduAfterSpaces? (r2 : Str) : Nat → Option (Str × Option Str)
  | 0 => eduG2Go [] r2
  | n + 1 =>
    match eduG2Go [] (r2.drop (n + 1)) with
    | some g => some g
    | none => eduAfterSpaces? r2 n

/-- Lazy first group `^(.+?)` followed by a literal comma. -/
def eduG1Go (acc : Str) : Str → Option (Str × Str × Option Str)
  | [] => none
  | c :: rest =>
    if lineTerm c then none
    else
      match rest with
      | ',' :: r2 =>
        (match eduAfterSpaces? r2 (r2.takeWhile jsSpace).length with
         | some g => some (acc ++ [c], g.1, g.2)
         | none => eduG1Go (acc ++ [c]) rest)
      | _ => eduG1Go (acc ++ [c]) rest

/-- `line.match(/^(.+?),\s*(.+?)(?:,\s*(.+?))?$/)`, returning the three
captured groups. -/
def eduMatch? (line : Str) : Option (Str × Str × Option Str) := eduG1Go [] line

/-- Keywords locating the education section. -/
def educationKeywords : List Str :=
  ["education".toList, "academic".toList, "university".toList,
   "college".toList]

/-- `ResumeParser.extractEducation`. -/
def extractEducation (lines : List Str) : List Education :=
  match linesAfterKw educationKeywords lines with
  | none => []
  | some rest =>
    let collected := rest.takeWhile (fun l =>
      !(isSectionHeader l &&
        !educationKeywords.any (fun k => containsStr (lowerStr l) k)))
    (collected.filter (fun l => decide (l.length > 10) &&
        !(l.head? = some '•') && !(l.head? = some '-'))).filterMap
      (fun line =>
        match eduMatch? line with
        | some g =>
          some ⟨jsTrim g.2.1, jsTrim g.1, (g.2.2.map jsTrim).getD [], [], [], []⟩
        | none =>
          let parts := (splitAnyChar [','] line).map jsTrim
          if decide (parts.length ≥ 2) then
            some ⟨parts.getD 1 [], parts.getD 0 [],
              joinSep ", ".toList (parts.drop 2), [], [], []⟩
          else none)

/-- The text normalizer of `extractResumeData`: split on newlines, trim,
drop empty lines. -/
def normalizeLines (text : Str) : List Str :=
  ((splitAnyChar ['\n'] text).map jsTrim).filter (fun l => decide (0 < l.length))

/-- `ResumeParser.extractResumeData`: the five section extractors over
the normalized lines; `projects`, `certifications` and `awards` are
always the empty sequence. -/
def extractResumeData (text : Str) : ResumeData :=
  let lines := normalizeLines text
  ⟨extractPersonalInfo lines, extractSummary lines, extractExperience lines,
   extractEducation lines, extractSkills lines, [], [], []⟩

-- ===================== THEOREMS =====================

theorem occCount_cons_eq (pat : Str) (c : Char) (s : Str) :
    occCount pat (c :: s) = (if pat.isPrefixOf (c :: s) then 1 else 0) + occCount pat s := rfl

theorem occCount_le_append (pat A B : Str) :
    occCount pat B ≤ occCount pat (A ++ B) := by
  induction A with
  | nil => simp
  | cons a A ih =>
    have h : occCount pat (a :: (A ++ B)) =
        (if pat.isPrefixOf (a :: (A ++ B)) then 1 else 0) + occCount pat (A ++ B) := rfl
    rw [List.cons_append, h]
    split <;> omega

theorem occCount_split_ge (pat : Str) (hp : pat ≠ []) (P R : Str) :
    occCount pat R + 1 ≤ occCount pat (P ++ pat ++ R) := by
  induction P with
  | nil =>
    match pat, hp with
    | c :: pt, _ =>
      have h : occCount (c :: pt) (([] ++ (c :: pt)) ++ R) =
          (if (c :: pt).isPrefixOf (c :: (pt ++ R)) then 1 else 0) +
            occCount (c :: pt) (pt ++ R) := rfl
      rw [h, if_pos]
      · have := occCount_le_append (c :: pt) pt R
        omega
      · rw [List.isPrefixOf_iff_prefix, ← List.cons_append]
        exact List.prefix_append _ _
  | cons a P ih =>
    have h : occCount pat (((a :: P) ++ pat) ++ R) =
        (if pat.isPrefixOf (a :: ((P ++ pat) ++ R)) then 1 else 0) +
          occCount pat ((P ++ pat) ++ R) := rfl
    rw [h]
    split <;> omega

theorem splitFirst?_none_iff (pat : Str) (hp : pat ≠ []) (s : Str) :
    splitFirst? pat s = none ↔ occCount pat s = 0 := by
  induction s with
  | nil =>
    have hpre : pat.isPrefixOf ([] : Str) = false := by
      rw [Bool.eq_false_iff]
      intro hc
      rw [List.isPrefixOf_iff_prefix] at hc
      exact hp (List.prefix_nil.mp hc)
    simp [splitFirst?, occCount, hpre]
  | cons c rest ih =>
    by_cases h : pat.isPrefixOf (c :: rest)
    · simp [splitFirst?, occCount_cons_eq, h]
    · simp [splitFirst?, occCount_cons_eq, h, Option.map_eq_none', ih]

theorem splitFirst?_unique (pat : Str) (hp : pat ≠ []) (P R : Str)
    (h : occCount pat (P ++ pat ++ R) = 1) :
    splitFirst? pat (P ++ pat ++ R) = some (P, R) := by
  induction P with
  | nil =>
    match pat, hp with
    | c :: pt, _ =>
      show splitFirst? (c :: pt) ((c :: pt) ++ R) = some ([], R)
      have hpre : (c :: pt).isPrefixOf ((c :: pt) ++ R) = true := by
        rw [List.isPrefixOf_iff_prefix]
        exact List.prefix_append _ _
      rw [show ((c :: pt) ++ R) = c :: (pt ++ R) from rfl, splitFirst?]
      rw [show (c :: (pt ++ R)) = ((c :: pt) ++ R) from rfl, hpre]
      simp [List.drop_left]
  | cons a P ih =>
    have hcons : ((a :: P) ++ pat) ++ R = a :: ((P ++ pat) ++ R) := rfl
    have h1 : occCount pat (((a :: P) ++ pat) ++ R) =
        (if pat.isPrefixOf (a :: ((P ++ pat) ++ R)) then 1 else 0) +
          occCount pat ((P ++ pat) ++ R) := rfl
    have h2 := occCount_split_ge pat hp P R
    by_cases hpre : pat.isPrefixOf (a :: ((P ++ pat) ++ R))
    · rw [h1, if_pos hpre] at h
      omega
    · rw [h1, if_neg hpre] at h
      have h3 := ih (by omega)
      rw [hcons, splitFirst?, if_neg (by simpa using hpre), h3]
      rfl

theorem splitFirst?_isSome_of_occ (pat : Str) (hp : pat ≠ []) (s : Str)
    (h : occCount pat s ≠ 0) : (splitFirst? pat s).isSome = true := by
  cases hs : splitFirst? pat s with
  | none => exact absurd ((splitFirst?_none_iff pat hp s).mp hs) h
  | some pq => rfl

/-- C1 (amended): when the template decomposes as
`preamble ++ begin ++ middle ++ end ++ postamble`, with each marker
occurring exactly once (so the begin marker precedes the end marker),
`generateLatexFromResume` preserves the preamble and the postamble
byte-for-byte around the regenerated body, for every record. -/
theorem C1_splice_preserves_surroundings (r : ResumeData) (P M Q : Str)
    (hB : occCount beginDelim (P ++ beginDelim ++ M ++ endDelim ++ Q) = 1)
    (hE : occCount endDelim (P ++ beginDelim ++ M ++ endDelim ++ Q) = 1) :
    generateLatexFromResume r (P ++ beginDelim ++ M ++ endDelim ++ Q) =
      P ++ beginDelim ++ "\n".toList ++ buildLatexBody r ++ "\n".toList ++
        endDelim ++ Q := by
  have hbne : beginDelim ≠ ([] : Str) := by decide
  have hene : endDelim ≠ ([] : Str) := by decide
  have hB' : occCount beginDelim ((P ++ beginDelim) ++ (M ++ endDelim ++ Q)) = 1 := by
    simpa [List.append_assoc] using hB
  have hE' : occCount endDelim ((P ++ beginDelim) ++ ((M ++ endDelim) ++ Q)) = 1 := by
    simpa [List.append_assoc] using hE
  have hsb : splitFirst? beginDelim (P ++ beginDelim ++ (M ++ endDelim ++ Q)) =
      some (P, M ++ endDelim ++ Q) := by
    apply splitFirst?_unique beginDelim hbne
    simpa [List.append_assoc] using hB
  have hoccB0 : occCount beginDelim (M ++ endDelim ++ Q) = 0 := by
    have h1 := occCount_split_ge beginDelim hbne P (M ++ endDelim ++ Q)
    have h2 : occCount beginDelim (P ++ beginDelim ++ (M ++ endDelim ++ Q)) = 1 := by
      simpa [List.append_assoc] using hB
    omega
  have hsb2 : splitFirst? beginDelim (M ++ endDelim ++ Q) = none :=
    (splitFirst?_none_iff beginDelim hbne _).mpr hoccB0
  have hoccE : occCount endDelim (M ++ endDelim ++ Q) = 1 := by
    have h1 : occCount endDelim (M ++ endDelim ++ Q) ≤
        occCount endDelim ((P ++ beginDelim) ++ (M ++ endDelim ++ Q)) :=
      occCount_le_append endDelim (P ++ beginDelim) (M ++ endDelim ++ Q)
    have h2 : occCount endDelim ((P ++ beginDelim) ++ (M ++ endDelim ++ Q)) = 1 := by
      simpa [List.append_assoc] using hE
    have h3 := occCount_split_ge endDelim hene M Q
    omega
  have hse : splitFirst? endDelim (M ++ endDelim ++ Q) = some (M, Q) :=
    splitFirst?_unique endDelim hene M Q hoccE
  have hT : P ++ beginDelim ++ M ++ endDelim ++ Q =
      P ++ beginDelim ++ (M ++ endDelim ++ Q) := by
    simp [List.append_assoc]
  rw [hT]
  have hsE : (splitFirst? endDelim (P ++ beginDelim ++ (M ++ endDelim ++ Q))).isSome = true := by
    apply splitFirst?_isSome_of_occ endDelim hene
    intro hc
    rw [show P ++ beginDelim ++ (M ++ endDelim ++ Q) =
        (P ++ beginDelim) ++ ((M ++ endDelim) ++ Q) by simp [List.append_assoc]] at hc
    omega
  unfold generateLatexFromResume containsStr splitTwo
  rw [hsb]
  simp only [hsE, hsb2, hse, Option.isSome_some, if_true]
  by_cases hQ : Q = []
  · simp [hQ, hsb2, hse, appendIfNonempty]
  · simp [hQ, hsb2, hse, appendIfNonempty, List.append_assoc]

/-- C1 counterexample: a template with exactly one occurrence of each
marker, but with the end marker BEFORE the begin marker.  The code
produces no postamble at all, so the bytes of the template after the end
marker (here `X\begin{document}`) are NOT preserved, contradicting the
claim as stated. -/
theorem C1_counterexample :
    occCount beginDelim swappedTemplate = 1 ∧
    occCount endDelim swappedTemplate = 1 ∧
    generateLatexFromResume emptyResume swappedTemplate ≠
      textBeforeFirst beginDelim swappedTemplate ++ beginDelim ++ "\n".toList ++
        buildLatexBody emptyResume ++ "\n".toList ++ endDelim ++
        textAfterFirst endDelim swappedTemplate := by
  refine ⟨by decide, by decide, by decide⟩

/-- C1 witness: concrete instance of the amended theorem. -/
theorem C1_witness :
    generateLatexFromResume emptyResume
        ("PRE".toList ++ beginDelim ++ "OLD".toList ++ endDelim ++ "POST".toList) =
      "PRE".toList ++ beginDelim ++ "\n".toList ++ buildLatexBody emptyResume ++
        "\n".toList ++ endDelim ++ "POST".toList :=
  C1_splice_preserves_surroundings emptyResume "PRE".toList "OLD".toList "POST".toList
    (by decide) (by decide)

/-- C7: for every record and every template that does not contain the end
marker, the renderer still succeeds: the output is the preamble (the text
before the begin marker when that marker is present, otherwise the
synthesized default preamble, with the rest of the template treated as
empty), then the begin marker, the generated body and the end marker,
with an empty postamble. -/
theorem C7_render_total_without_end_marker (r : ResumeData) (T : Str)
    (h : containsStr T endDelim = false) :
    generateLatexFromResume r T =
      (match splitFirst? beginDelim T with
       | some pq => pq.1
       | none => getDefaultPreamble) ++
      beginDelim ++ "\n".toList ++ buildLatexBody r ++ "\n".toList ++ endDelim := by
  have hE : splitFirst? endDelim T = none := by
    unfold containsStr at h
    cases hs : splitFirst? endDelim T with
    | none => rfl
    | some pq => rw [hs] at h; simp at h
  unfold generateLatexFromResume containsStr splitTwo
  cases hb : splitFirst? beginDelim T with
  | none => simp [hE, appendIfNonempty]
  | some pq =>
    cases hb2 : splitFirst? beginDelim pq.2 with
    | none => simp [hE, hb, hb2, appendIfNonempty]
    | some pq2 => simp [hE, hb, hb2, appendIfNonempty]

/-- C7 witness: a template with a begin marker but no end marker. -/
theorem C7_witness :
    generateLatexFromResume emptyResume ("XX".toList ++ beginDelim ++ "YY".toList) =
      (match splitFirst? beginDelim ("XX".toList ++ beginDelim ++ "YY".toList) with
       | some pq => pq.1
       | none => getDefaultPreamble) ++
      beginDelim ++ "\n".toList ++ buildLatexBody emptyResume ++ "\n".toList ++
        endDelim :=
  C7_render_total_without_end_marker emptyResume
    ("XX".toList ++ beginDelim ++ "YY".toList) (by decide)

/-- C2: the escaper is the source-ordered chain
newline-collapse, then backslash, then the reserved class `&%$#_{}~^`,
then `<`, then `>` (witnessed on a string exercising every stage), and it
is applied exactly once per leaf string: a record whose name is
`50% & Associates` renders with the once-escaped name occurring exactly
once and the twice-escaped name not at all, under two different
templates. -/
theorem C2_escaped_exactly_once :
    (∀ s : Str, escapeLatex s =
      escGreater (escLess (escReserved (escBackslash (collapseNewlines s))))) ∧
    escapeLatex "a\nb\\c&d<e>f".toList =
      "a b\\textbackslash\\\x7b\\\x7dc\\&d\\textless\x7b\x7de\\textgreater\x7b\x7df".toList ∧
    escapeLatex fancyName = "50\\% \\& Associates".toList ∧
    escapeLatex fancyName ≠ escapeLatex (escapeLatex fancyName) ∧
    occCount (escapeLatex fancyName)
      (generateLatexFromResume fancyNameResume templateA) = 1 ∧
    occCount (escapeLatex (escapeLatex fancyName))
      (generateLatexFromResume fancyNameResume templateA) = 0 ∧
    occCount (escapeLatex fancyName)
      (generateLatexFromResume fancyNameResume templateB) = 1 ∧
    occCount (escapeLatex (escapeLatex fancyName))
      (generateLatexFromResume fancyNameResume templateB) = 0 := by
  exact ⟨fun s => rfl, by decide, by decide, by decide, by decide, by decide,
    by decide, by decide⟩

/-- C2 witness: the stage-composition fact instantiated at a concrete
string. -/
theorem C2_witness :
    escapeLatex "x\ny".toList =
      escGreater (escLess (escReserved (escBackslash (collapseNewlines "x\ny".toList)))) :=
  C2_escaped_exactly_once.1 "x\ny".toList

/-- C3 counterexample: when `personalInfo` is present but misses its
`email` (and later) fields, the validator returns it untouched — the
missing fields are NOT filled with empty strings, contradicting the
claim as stated. -/
theorem C3_counterexample :
    (validateResumeData partialNameOnly).personalInfo =
      some ⟨some "A".toList, none, none, none, none, none, none⟩ ∧
    (validateResumeData partialNameOnly).personalInfo.map PersonalInfoP.email ≠
      some (some []) := by
  exact ⟨by decide, by decide⟩

/-- C3 (amended): the validator always returns a present `personalInfo` —
the fully-keyed all-empty object when it was absent, and the UNCHANGED
object when present (missing individual fields are not filled) — and each
of the six collections present as a sequence, empty if it was absent and
unchanged otherwise; `summary` is untouched. -/
theorem C3_validate_shape (x : ResumeDataP) :
    (validateResumeData x).personalInfo.isSome = true ∧
    (x.personalInfo = none →
      (validateResumeData x).personalInfo = some emptyPersonalInfoP) ∧
    (∀ pi, x.personalInfo = some pi →
      (validateResumeData x).personalInfo = some pi) ∧
    (validateResumeData x).experience = some (x.experience.getD []) ∧
    (validateResumeData x).education = some (x.education.getD []) ∧
    (validateResumeData x).skills = some (x.skills.getD []) ∧
    (validateResumeData x).projects = some (x.projects.getD []) ∧
    (validateResumeData x).certifications = some (x.certifications.getD []) ∧
    (validateResumeData x).awards = some (x.awards.getD []) ∧
    (validateResumeData x).summary = x.summary := by
  refine ⟨rfl, fun h => by simp [validateResumeData, h],
    fun pi h => by simp [validateResumeData, h], rfl, rfl, rfl, rfl, rfl, rfl, rfl⟩

/-- C3 witness: the amended theorem applied at the concrete partial
record, discharging the `personalInfo = some _` hypothesis. -/
theorem C3_witness :
    (validateResumeData partialNameOnly).personalInfo =
      some ⟨some "A".toList, none, none, none, none, none, none⟩ :=
  (C3_validate_shape partialNameOnly).2.2.1
    ⟨some "A".toList, none, none, none, none, none, none⟩ rfl

/-- C8: `validateResumeData` is idempotent. -/
theorem C8_validate_idempotent (x : ResumeDataP) :
    validateResumeData (validateResumeData x) = validateResumeData x := by
  simp [validateResumeData]

/-- C8 witness: idempotence at a concrete partial record. -/
theorem C8_witness :
    validateResumeData (validateResumeData partialNameOnly) =
      validateResumeData partialNameOnly :=
  C8_validate_idempotent partialNameOnly

theorem categorize_mem_iff (items : List Str) (g : Skill) :
    g ∈ categorizeSkills items ↔
      (items.filter techTest ≠ [] ∧
        g = ⟨"Technical Skills".toList, items.filter techTest⟩) ∨
      (items.filter softTest ≠ [] ∧
        g = ⟨"Soft Skills".toList, items.filter softTest⟩) ∨
      (items.filter (fun skill =>
          !(decide (skill ∈ items.filter techTest)) &&
          !(decide (skill ∈ items.filter softTest))) ≠ [] ∧
        g = ⟨"Other Skills".toList, items.filter (fun skill =>
          !(decide (skill ∈ items.filter techTest)) &&
          !(decide (skill ∈ items.filter softTest)))⟩) := by
  simp only [categorizeSkills]
  split_ifs <;> simp_all [List.isEmpty_iff, List.eq_nil_iff_forall_not_mem] <;> tauto

/-- C4 counterexample: for the input lines `Skills` /
`javascript leadership`, the single token matches BOTH keyword regexes
and is placed in BOTH the technical and the soft group — the groups do
not partition the token set. -/
theorem C4_counterexample :
    (extractSkills skillsBothLines).map Skill.category =
      ["Technical Skills".toList, "Soft Skills".toList] ∧
    (extractSkills skillsBothLines).map Skill.skills =
      [["javascript leadership".toList], ["javascript leadership".toList]] := by
  exact ⟨by decide, by decide⟩

theorem mem_tech_group_iff (items : List Str) (t : Str) :
    (∃ g, g ∈ categorizeSkills items ∧
      g.category = "Technical Skills".toList ∧ t ∈ g.skills) ↔
      t ∈ items ∧ techTest t = true := by
  constructor
  · rintro ⟨g, hg, hcat, ht⟩
    rcases (categorize_mem_iff items g).mp hg with ⟨_, rfl⟩ | ⟨_, rfl⟩ | ⟨_, rfl⟩
    · exact List.mem_filter.mp ht
    · exact absurd hcat
        (show ¬("Soft Skills".toList : Str) = "Technical Skills".toList by decide)
    · exact absurd hcat
        (show ¬("Other Skills".toList : Str) = "Technical Skills".toList by decide)
  · rintro ⟨hmem, htec⟩
    have hmemf : t ∈ items.filter techTest := List.mem_filter.mpr ⟨hmem, htec⟩
    exact ⟨⟨"Technical Skills".toList, items.filter techTest⟩,
      (categorize_mem_iff items _).mpr
        (Or.inl ⟨List.ne_nil_of_mem hmemf, rfl⟩), rfl, hmemf⟩

theorem mem_soft_group_iff (items : List Str) (t : Str) :
    (∃ g, g ∈ categorizeSkills items ∧
      g.category = "Soft Skills".toList ∧ t ∈ g.skills) ↔
      t ∈ items ∧ softTest t = true := by
  constructor
  · rintro ⟨g, hg, hcat, ht⟩
    rcases (categorize_mem_iff items g).mp hg with ⟨_, rfl⟩ | ⟨_, rfl⟩ | ⟨_, rfl⟩
    · exact absurd hcat
        (show ¬("Technical Skills".toList : Str) = "Soft Skills".toList by decide)
    · exact List.mem_filter.mp ht
    · exact absurd hcat
        (show ¬("Other Skills".toList : Str) = "Soft Skills".toList by decide)
  · rintro ⟨hmem, hsof⟩
    have hmemf : t ∈ items.filter softTest := List.mem_filter.mpr ⟨hmem, hsof⟩
    exact ⟨⟨"Soft Skills".toList, items.filter softTest⟩,
      (categorize_mem_iff items _).mpr
        (Or.inr (Or.inl ⟨List.ne_nil_of_mem hmemf, rfl⟩)), rfl, hmemf⟩

theorem mem_other_group_iff (items : List Str) (t : Str) :
    (∃ g, g ∈ categorizeSkills items ∧
      g.category = "Other Skills".toList ∧ t ∈ g.skills) ↔
      t ∈ items ∧ techTest t = false ∧ softTest t = false := by
  constructor
  · rintro ⟨g, hg, hcat, ht⟩
    rcases (categorize_mem_iff items g).mp hg with ⟨_, rfl⟩ | ⟨_, rfl⟩ | ⟨_, rfl⟩
    · exact absurd hcat
        (show ¬("Technical Skills".toList : Str) = "Other Skills".toList by decide)
    · exact absurd hcat
        (show ¬("Soft Skills".toList : Str) = "Other Skills".toList by decide)
    · have h2 := List.mem_filter.mp ht
      have h3 := h2.2
      simp only [Bool.and_eq_true, Bool.not_eq_true', decide_eq_false_iff_not] at h3
      refine ⟨h2.1, ?_, ?_⟩
      · cases htec : techTest t with
        | false => rfl
        | true => exact absurd (List.mem_filter.mpr ⟨h2.1, htec⟩) h3.1
      · cases hsof : softTest t with
        | false => rfl
        | true => exact absurd (List.mem_filter.mpr ⟨h2.1, hsof⟩) h3.2
  · rintro ⟨hmem, htecf, hsoff⟩
    have hnot1 : t ∉ items.filter techTest := by
      intro hc
      exact absurd (List.mem_filter.mp hc).2 (by simp [htecf])
    have hnot2 : t ∉ items.filter softTest := by
      intro hc
      exact absurd (List.mem_filter.mp hc).2 (by simp [hsoff])
    have hmemf : t ∈ items.filter (fun skill =>
        !(decide (skill ∈ items.filter techTest)) &&
        !(decide (skill ∈ items.filter softTest))) := by
      refine List.mem_filter.mpr ⟨hmem, ?_⟩
      simp [hnot1, hnot2]
    exact ⟨⟨"Other Skills".toList, _⟩,
      (categorize_mem_iff items _).mpr
        (Or.inr (Or.inr ⟨List.ne_nil_of_mem hmemf, rfl⟩)), rfl, hmemf⟩

theorem tech_group_present_iff (items : List Str) :
    items.filter techTest ≠ [] ↔
      (⟨"Technical Skills".toList, items.filter techTest⟩ : Skill) ∈
        categorizeSkills items := by
  rw [categorize_mem_iff]
  constructor
  · intro hne
    exact Or.inl ⟨hne, rfl⟩
  · rintro (⟨hne, _⟩ | ⟨_, heq⟩ | ⟨_, heq⟩)
    · exact hne
    · exact absurd (congrArg Skill.category heq)
        (show ¬("Technical Skills".toList : Str) = "Soft Skills".toList by decide)
    · exact absurd (congrArg Skill.category heq)
        (show ¬("Technical Skills".toList : Str) = "Other Skills".toList by decide)

theorem soft_group_present_iff (items : List Str) :
    items.filter softTest ≠ [] ↔
      (⟨"Soft Skills".toList, items.filter softTest⟩ : Skill) ∈
        categorizeSkills items := by
  rw [categorize_mem_iff]
  constructor
  · intro hne
    exact Or.inr (Or.inl ⟨hne, rfl⟩)
  · rintro (⟨_, heq⟩ | ⟨hne, _⟩ | ⟨_, heq⟩)
    · exact absurd (congrArg Skill.category heq)
        (show ¬("Soft Skills".toList : Str) = "Technical Skills".toList by decide)
    · exact hne
    · exact absurd (congrArg Skill.category heq)
        (show ¬("Soft Skills".toList : Str) = "Other Skills".toList by decide)

/-- C4 (amended): every token lands in at least one group; a token is in
the technical group IFF it matches the technical regex, in the soft
group IFF it matches the soft regex (so a token matching both regexes
appears in BOTH groups), and in `Other Skills` IFF it matches neither;
each non-empty category yields its group (one group per category, its
contents exactly the corresponding filter), every emitted group is
non-empty, the group order is technical, soft, other, and on the
concrete input the technical group contains `JavaScript` and `React`. -/
theorem C4_skill_classification (items : List Str) :
    (∀ t, t ∈ items → ∃ g, g ∈ categorizeSkills items ∧ t ∈ g.skills) ∧
    (∀ t, (∃ g, g ∈ categorizeSkills items ∧
        g.category = "Technical Skills".toList ∧ t ∈ g.skills) ↔
      t ∈ items ∧ techTest t = true) ∧
    (∀ t, (∃ g, g ∈ categorizeSkills items ∧
        g.category = "Soft Skills".toList ∧ t ∈ g.skills) ↔
      t ∈ items ∧ softTest t = true) ∧
    (∀ t, (∃ g, g ∈ categorizeSkills items ∧
        g.category = "Other Skills".toList ∧ t ∈ g.skills) ↔
      t ∈ items ∧ techTest t = false ∧ softTest t = false) ∧
    (∀ t, t ∈ items → techTest t = true → softTest t = true →
      (∃ g, g ∈ categorizeSkills items ∧
        g.category = "Technical Skills".toList ∧ t ∈ g.skills) ∧
      (∃ g, g ∈ categorizeSkills items ∧
        g.category = "Soft Skills".toList ∧ t ∈ g.skills)) ∧
    (items.filter techTest ≠ [] ↔
      (⟨"Technical Skills".toList, items.filter techTest⟩ : Skill) ∈
        categorizeSkills items) ∧
    (items.filter softTest ≠ [] ↔
      (⟨"Soft Skills".toList, items.filter softTest⟩ : Skill) ∈
        categorizeSkills items) ∧
    (∀ g, g ∈ categorizeSkills items → g.skills ≠ []) ∧
    (∀ g1 g2, g1 ∈ categorizeSkills items → g2 ∈ categorizeSkills items →
      g1.category = g2.category → g1 = g2) ∧
    List.Sublist ((categorizeSkills items).map Skill.category)
      ["Technical Skills".toList, "Soft Skills".toList, "Other Skills".toList] ∧
    (∀ g, g ∈ categorizeSkills items → g.category = "Technical Skills".toList →
      g.skills = items.filter techTest) ∧
    (∀ g, g ∈ categorizeSkills items → g.category = "Soft Skills".toList →
      g.skills = items.filter softTest) ∧
    (extractSkills skillsDemoLines).map Skill.category =
      ["Technical Skills".toList] ∧
    (∀ g, g ∈ extractSkills skillsDemoLines →
      "JavaScript".toList ∈ g.skills ∧ "React".toList ∈ g.skills) := by
  refine ⟨?_, mem_tech_group_iff items, mem_soft_group_iff items,
    mem_other_group_iff items, ?_, tech_group_present_iff items,
    soft_group_present_iff items, ?_, ?_, ?_, ?_, ?_, by decide, by decide⟩
  · intro t ht
    cases htec : techTest t with
    | true =>
      obtain ⟨g, hg, _, hts⟩ := (mem_tech_group_iff items t).mpr ⟨ht, htec⟩
      exact ⟨g, hg, hts⟩
    | false =>
      cases hsof : softTest t with
      | true =>
        obtain ⟨g, hg, _, hts⟩ := (mem_soft_group_iff items t).mpr ⟨ht, hsof⟩
        exact ⟨g, hg, hts⟩
      | false =>
        obtain ⟨g, hg, _, hts⟩ :=
          (mem_other_group_iff items t).mpr ⟨ht, htec, hsof⟩
        exact ⟨g, hg, hts⟩
  · intro t ht htec hsof
    exact ⟨(mem_tech_group_iff items t).mpr ⟨ht, htec⟩,
      (mem_soft_group_iff items t).mpr ⟨ht, hsof⟩⟩
  · intro g hg
    rcases (categorize_mem_iff items g).mp hg with ⟨hne, rfl⟩ | ⟨hne, rfl⟩ | ⟨hne, rfl⟩ <;>
      simpa using hne
  · intro g1 g2 hg1 hg2 hcat
    rcases (categorize_mem_iff items g1).mp hg1 with ⟨_, rfl⟩ | ⟨_, rfl⟩ | ⟨_, rfl⟩ <;>
      rcases (categorize_mem_iff items g2).mp hg2 with ⟨_, rfl⟩ | ⟨_, rfl⟩ | ⟨_, rfl⟩ <;>
      first
        | rfl
        | exact absurd hcat
            (show ("Technical Skills".toList : Str) = "Soft Skills".toList → False
              by decide)
        | exact absurd hcat
            (show ("Technical Skills".toList : Str) = "Other Skills".toList → False
              by decide)
        | exact absurd hcat
            (show ("Soft Skills".toList : Str) = "Technical Skills".toList → False
              by decide)
        | exact absurd hcat
            (show ("Soft Skills".toList : Str) = "Other Skills".toList → False
              by decide)
        | exact absurd hcat
            (show ("Other Skills".toList : Str) = "Technical Skills".toList → False
              by decide)
        | exact absurd hcat
            (show ("Other Skills".toList : Str) = "Soft Skills".toList → False
              by decide)
  · simp only [categorizeSkills]
    split_ifs <;> simp
  · intro g hg hcat
    rcases (categorize_mem_iff items g).mp hg with ⟨hne, rfl⟩ | ⟨hne, rfl⟩ | ⟨hne, rfl⟩
    · rfl
    · exact absurd hcat
        (show ¬("Soft Skills".toList : Str) = "Technical Skills".toList by decide)
    · exact absurd hcat
        (show ¬("Other Skills".toList : Str) = "Technical Skills".toList by decide)
  · intro g hg hcat
    rcases (categorize_mem_iff items g).mp hg with ⟨hne, rfl⟩ | ⟨hne, rfl⟩ | ⟨hne, rfl⟩
    · exact absurd hcat
        (show ¬("Technical Skills".toList : Str) = "Soft Skills".toList by decide)
    · rfl
    · exact absurd hcat
        (show ¬("Other Skills".toList : Str) = "Soft Skills".toList by decide)

/-- C4 witness: the amended theorem applied at the concrete token list of
the spec's example, discharging the membership hypotheses. -/
theorem C4_witness :
    ∃ g, g ∈ categorizeSkills ["JavaScript".toList, "Teamwork".toList] ∧
      "JavaScript".toList ∈ g.skills :=
  (C4_skill_classification ["JavaScript".toList, "Teamwork".toList]).1
    "JavaScript".toList (by decide)

theorem infix_joinSep_of_mem (sep : Str) (l : List Str) (x : Str) (hx : x ∈ l) :
    x <:+: joinSep sep l := by
  induction l with
  | nil => cases hx
  | cons a t ih =>
    cases t with
    | nil =>
      rw [List.mem_singleton] at hx
      subst hx
      exact List.infix_refl x
    | cons b t2 =>
      rcases List.mem_cons.mp hx with rfl | hx2
      · exact ((List.prefix_append x (sep ++ joinSep sep (b :: t2))).isInfix).trans
          (by rw [joinSep, List.append_assoc])
      · exact ((ih hx2).trans (List.suffix_append _ _).isInfix).trans
          (by rw [joinSep, List.append_assoc])

theorem exists_core_decomp (A B X : Str) :
    ∃ p q, A ++ (beginDelim ++ ("\n".toList ++ (X ++ ("\n".toList ++ B)))) =
      p ++ (X ++ q) :=
  ⟨A ++ (beginDelim ++ "\n".toList), "\n".toList ++ B,
    by simp [List.append_assoc]⟩

theorem appendIfNonempty_eq (core post : Str) :
    appendIfNonempty core post = core ++ (if post.isEmpty then [] else post) := by
  unfold appendIfNonempty
  split <;> simp

theorem render_decomposes (r : ResumeData) (T : Str) :
    ∃ p q, generateLatexFromResume r T =
      p ++ buildLatexBody r ++ q := by
  unfold generateLatexFromResume
  dsimp only
  rw [appendIfNonempty_eq]
  simp only [List.append_assoc]
  exact exists_core_decomp _ _ _

theorem entry_decomposes (e : Experience) :
    ∃ p q, renderExperienceEntry e =
      p ++ toBulletLines e.bullets expFallback ++ q := by
  refine ⟨"    \\resumeSubheading\n      \x7b".toList ++
      escapeLatex (if e.position ≠ [] then e.position else "Role Title".toList) ++
      "\x7d\x7b".toList ++ escapeLatex (formatDateRange e.startDate e.endDate) ++
      "\x7d\n      \x7b".toList ++
      escapeLatex (if e.company ≠ [] then e.company else "Company Name".toList) ++
      "\x7d\x7b".toList ++ escapeLatex e.location ++
      "\x7d\n      \\resumeItemListStart\n".toList,
    "\n      \\resumeItemListEnd".toList, ?_⟩
  unfold renderExperienceEntry
  simp [List.append_assoc]

theorem expSection_decomposes (l : List Experience) (hl : ¬l.isEmpty = true) :
    ∃ p q, buildExperienceSection l =
      p ++ joinSep "\n\\vspace\x7b-16pt\x7d\n".toList (l.map renderExperienceEntry) ++ q := by
  unfold buildExperienceSection
  rw [if_neg hl]
  exact ⟨_, _, rfl⟩

theorem expSection_mem_body (r : ResumeData) (h : ¬r.experience.isEmpty = true) :
    buildExperienceSection r.experience <:+: buildLatexBody r := by
  have hne : buildExperienceSection r.experience ≠ [] := by
    unfold buildExperienceSection
    rw [if_neg h]
    intro hc
    exact List.cons_ne_nil _ _ (List.append_eq_nil.mp (List.append_eq_nil.mp hc).1).1
  apply infix_joinSep_of_mem
  apply List.mem_filter.mpr
  refine ⟨?_, by simpa using hne⟩
  dsimp only
  rw [if_neg (show ¬(buildExperienceSection r.experience).isEmpty = true by
    simpa using hne)]
  simp

theorem toBulletLines_of_trimmed_empty (items : List Str)
    (h : (items.map jsTrim).filter (fun s => !s.isEmpty) = []) :
    toBulletLines items expFallback = fallbackItemLine := by
  unfold toBulletLines fallbackItemLine
  rw [h]
  rfl

theorem joinSep_cons_decomposes (sep x : Str) (xs : List Str) :
    ∃ t, joinSep sep (x :: xs) = x ++ t := by
  cases xs with
  | nil => exact ⟨[], by simp [joinSep]⟩
  | cons y t2 => exact ⟨sep ++ joinSep sep (y :: t2), by rw [joinSep, List.append_assoc]⟩

theorem toBulletLines_has_item (items : List Str) (fb : Str) :
    1 ≤ occCount resumeItemOpen (toBulletLines items fb) := by
  unfold toBulletLines
  set norm := (items.map jsTrim).filter (fun s => !s.isEmpty) with hnorm
  have main : ∀ (z : Str) (zs : List Str),
      1 ≤ occCount resumeItemOpen
        (joinSep "\n".toList ((z :: zs).map (fun item =>
          "        \\resumeItem\x7b".toList ++ escapeLatex item ++ "\x7d".toList))) := by
    intro z zs
    rw [List.map_cons]
    obtain ⟨t, ht⟩ := joinSep_cons_decomposes "\n".toList _ _
    rw [ht]
    have hsplit : "        \\resumeItem\x7b".toList ++ escapeLatex z ++ "\x7d".toList ++ t =
        "        ".toList ++ resumeItemOpen ++ (escapeLatex z ++ "\x7d".toList ++ t) := by
      simp [resumeItemOpen, List.append_assoc]
    rw [hsplit]
    have := occCount_split_ge resumeItemOpen (by decide) "        ".toList
      (escapeLatex z ++ "\x7d".toList ++ t)
    omega
  cases hn : norm with
  | nil => simpa using main fb []
  | cons z zs => simpa using main z zs

theorem toBulletLines_ne_nil (items : List Str) (fb : Str) :
    toBulletLines items fb ≠ [] := by
  intro hc
  have h := toBulletLines_has_item items fb
  rw [hc] at h
  have : occCount resumeItemOpen ([] : Str) = 0 := by decide
  omega

/-- C6 (amended): for every record with an experience entry whose bullet
sequence trims away to nothing (in particular one that is empty) and
every template, the rendered output contains the fixed fallback
`\resumeItem` line; such an entry's bullet block is EXACTLY the single
fallback line; and bullet-block generation never yields a list with zero
`\resumeItem` lines (never an empty list construct). -/
theorem C6_fallback_bullet (r : ResumeData) (T : Str)
    (h : ∃ e ∈ r.experience, (e.bullets.map jsTrim).filter (fun s => !s.isEmpty) = []) :
    fallbackItemLine <:+: generateLatexFromResume r T ∧
    (∀ e ∈ r.experience, (e.bullets.map jsTrim).filter (fun s => !s.isEmpty) = [] →
      toBulletLines e.bullets expFallback = fallbackItemLine) ∧
    (∀ items fb, 1 ≤ occCount resumeItemOpen (toBulletLines items fb)) ∧
    (∀ items fb, toBulletLines items fb ≠ []) := by
  obtain ⟨e, he, hb⟩ := h
  refine ⟨?_, fun e' _ hb' => toBulletLines_of_trimmed_empty e'.bullets hb',
    toBulletLines_has_item, toBulletLines_ne_nil⟩
  have h1 : fallbackItemLine <:+: renderExperienceEntry e := by
    obtain ⟨p, q, hpq⟩ := entry_decomposes e
    rw [hpq, toBulletLines_of_trimmed_empty e.bullets hb]
    exact ⟨p, q, rfl⟩
  have hne : ¬r.experience.isEmpty = true := by
    cases hx : r.experience with
    | nil => rw [hx] at he; cases he
    | cons a t => simp
  have h2 : renderExperienceEntry e <:+:
      joinSep "\n\\vspace\x7b-16pt\x7d\n".toList (r.experience.map renderExperienceEntry) :=
    infix_joinSep_of_mem _ _ _ (List.mem_map_of_mem renderExperienceEntry he)
  have h3 : joinSep "\n\\vspace\x7b-16pt\x7d\n".toList (r.experience.map renderExperienceEntry)
      <:+: buildExperienceSection r.experience := by
    obtain ⟨p, q, hpq⟩ := expSection_decomposes r.experience hne
    exact hpq ▸ ⟨p, q, rfl⟩
  have h4 : buildExperienceSection r.experience <:+: buildLatexBody r :=
    expSection_mem_body r hne
  have h5 : buildLatexBody r <:+: generateLatexFromResume r T := by
    obtain ⟨p, q, hpq⟩ := render_decomposes r T
    exact hpq ▸ ⟨p, q, rfl⟩
  exact (((h1.trans h2).trans h3).trans h4).trans h5

/-- C6 counterexample: a record with exactly one entry whose bullet
sequence is empty, yet the fallback sentence occurs twice in the output
(the second entry's only bullet is whitespace and also triggers the
fallback) — so the sentence does not occur exactly once per
empty-bullet-sequence entry. -/
theorem C6_counterexample :
    (twoEntryResume.experience.filter (fun e => e.bullets.isEmpty)).length = 1 ∧
    occCount expFallback (generateLatexFromResume twoEntryResume simpleTemplate) = 2 := by
  exact ⟨by decide, by decide⟩

/-- C6 witness: the amended theorem at a concrete record and template. -/
theorem C6_witness :
    fallbackItemLine <:+: generateLatexFromResume twoEntryResume simpleTemplate :=
  (C6_fallback_bullet twoEntryResume simpleTemplate
    ⟨⟨"AlphaCo".toList, "Dev".toList, [], [], [], []⟩, by decide, by decide⟩).1

theorem extractExpLoop_nil (st : ExpState) : extractExpLoop st [] = st := rfl

theorem extractExpLoop_cons (st : ExpState) (line : Str) (rest : List Str) :
    extractExpLoop st (line :: rest) =
      if isSectionHeader line && decide (lowerStr line ≠ "experience".toList)
      then st else extractExpLoop (expStep st line) rest := rfl

/-- C5 (amended): for the synthetic input `Experience` /
`Senior Developer at Tech Corp | Jan 2020 - Present` followed by two
`•`-bullet lines with non-empty text, NEITHER of which is itself
recognised as a section header, extraction yields exactly one entry with
position `Senior Developer`, company `Tech Corp` and both bullets. -/
theorem C5_experience_extraction (b1 b2 : Str)
    (h1 : jsTrim b1 ≠ []) (h2 : jsTrim b2 ≠ [])
    (h3 : isSectionHeader ('•' :: b1) = false)
    (h4 : isSectionHeader ('•' :: b2) = false) :
    extractExperience (expDemoHead ++ ['•' :: b1, '•' :: b2]) =
      [⟨"Tech Corp".toList, "Senior Developer".toList, [], [], [],
        [jsTrim b1, jsTrim b2]⟩] := by
  have hb1 : (jsTrim b1).isEmpty = false := by
    cases hh : jsTrim b1 with
    | nil => exact absurd hh h1
    | cons x xs => rfl
  have hb2 : (jsTrim b2).isEmpty = false := by
    cases hh : jsTrim b2 with
    | nil => exact absurd hh h2
    | cons x xs => rfl
  have hkw : linesAfterKw experienceKeywords (expDemoHead ++ ['•' :: b1, '•' :: b2]) =
      some ["Senior Developer at Tech Corp | Jan 2020 - Present".toList,
            '•' :: b1, '•' :: b2] := by
    rw [show expDemoHead ++ ['•' :: b1, '•' :: b2] =
      "Experience".toList ::
        ("Senior Developer at Tech Corp | Jan 2020 - Present".toList ::
          ['•' :: b1, '•' :: b2]) from rfl]
    rw [linesAfterKw]
    rw [if_pos (by decide)]
  have hL1head : isSectionHeader
      "Senior Developer at Tech Corp | Jan 2020 - Present".toList = false := by
    decide
  have hstep1 : expStep ⟨[], [], none⟩
      "Senior Developer at Tech Corp | Jan 2020 - Present".toList =
      ⟨[⟨"Tech Corp".toList, "Senior Developer".toList, [], [], [], []⟩],
        [], some 0⟩ := by
    decide
  unfold extractExperience
  rw [hkw]
  show extractExpFinalize (extractExpLoop ⟨[], [], none⟩
    ["Senior Developer at Tech Corp | Jan 2020 - Present".toList,
     '•' :: b1, '•' :: b2]) = _
  rw [extractExpLoop_cons, hL1head, Bool.false_and,
    if_neg (show ¬(false = true) by simp), hstep1]
  rw [extractExpLoop_cons, h3, Bool.false_and,
    if_neg (show ¬(false = true) by simp)]
  rw [show expStep ⟨[⟨"Tech Corp".toList, "Senior Developer".toList,
        [], [], [], []⟩], [], some 0⟩ ('•' :: b1) =
      ⟨[⟨"Tech Corp".toList, "Senior Developer".toList, [], [], [],
        [jsTrim b1]⟩], [], some 0⟩ from by
    unfold expStep
    rw [if_neg (by simp)]
    rw [if_pos (by simp [curHasPosition, expStateGet])]
    simp only [List.drop_succ_cons, List.drop_zero, hb1, Bool.not_false,
      if_true]
    rfl]
  rw [extractExpLoop_cons, h4, Bool.false_and,
    if_neg (show ¬(false = true) by simp)]
  rw [show expStep ⟨[⟨"Tech Corp".toList, "Senior Developer".toList,
        [], [], [], [jsTrim b1]⟩], [], some 0⟩ ('•' :: b2) =
      ⟨[⟨"Tech Corp".toList, "Senior Developer".toList, [], [], [],
        [jsTrim b1, jsTrim b2]⟩], [], some 0⟩ from by
    unfold expStep
    rw [if_neg (by simp)]
    rw [if_pos (by simp [curHasPosition, expStateGet])]
    simp only [List.drop_succ_cons, List.drop_zero, hb2, Bool.not_false,
      if_true]
    rfl]
  rw [extractExpLoop_nil]
  unfold extractExpFinalize
  rw [if_pos (by simp [curComplete, expStateGet])]
  rfl

/-- C5 counterexample: with bullet lines `• Led a team of 5 engineers`
and `• Led education initiatives` (both non-empty), the second bullet
contains the section keyword `education` and aborts the scan, so the
single extracted entry has only ONE bullet instead of two. -/
theorem C5_counterexample :
    extractExperience expCexLines =
      [⟨"Tech Corp".toList, "Senior Developer".toList, [], [], [],
        ["Led a team of 5 engineers".toList]⟩] := by
  decide

/-- C5 witness: the amended theorem at two concrete bullet texts. -/
theorem C5_witness :
    extractExperience (expDemoHead ++
      ['•' :: "Led a team".toList, '•' :: "Shipped it".toList]) =
      [⟨"Tech Corp".toList, "Senior Developer".toList, [], [], [],
        [jsTrim "Led a team".toList, jsTrim "Shipped it".toList]⟩] :=
  C5_experience_extraction "Led a team".toList "Shipped it".toList
    (by decide) (by decide) (by decide) (by decide)

/-- C10: for every input text, the extractor's record has `projects`,
`certifications` and `awards` equal to the empty sequence — extraction
never populates the three auxiliary collections. -/
theorem C10_aux_collections_empty (text : Str) :
    (extractResumeData text).projects = [] ∧
    (extractResumeData text).certifications = [] ∧
    (extractResumeData text).awards = [] :=
  ⟨rfl, rfl, rfl⟩

/-- C10 witness: even a text with a `Projects` heading yields empty
auxiliary collections. -/
theorem C10_witness :
    (extractResumeData "Projects\nBuilt a compiler".toList).projects = [] :=
  (C10_aux_collections_empty "Projects\nBuilt a compiler".toList).1
